import Mathlib

/-!
Verification of the sisyphus file-tracking and integrity-verification layer.

This file shallowly embeds the core of `dbclients/tantalus.py` and
`datamanagement/check_integrity.py`: the storage clients' `create`
operation, filename/filepath derivation, `add_file`, `add_instance`,
`update_file`, `check_file`, the per-instance body of the integrity
sweep, and the paginated list driver.

Paths and filenames are modelled as lists of characters (Python `str`).
Catalog records are explicit structures; the metadata store is a pair of
record lists.  The generic CRUD helpers `get` / `get_or_create` and the
pagination loop live in `dbclients/basicclient.py`, which is not part of
the sources; those are modelled from the specification: `get` fails
NotFound on zero matches and Ambiguous on more than one, `get_or_create`
attempts `get`, creating on NotFound and failing FieldMismatch when a
record exists under the identity fields with differing other fields, and
the list driver pages with an offset/limit cursor, advancing the offset
by the page size each round and terminating when a page returns fewer
records than the page size.
-/

/-- A Python string (path, filename, blob name). -/
abbrev PyStr := List Char

/-- Live metadata a storage backend reports for a file: size and created time. -/
structure FileMeta where
  size : Nat
  created : Nat
deriving DecidableEq

/-- A storage backend's live contents: names mapped to their metadata. -/
abbrev Backend := List (PyStr × FileMeta)

/-- Look up the live metadata for a name on a backend. -/
def Backend.find (b : Backend) (n : PyStr) : Option FileMeta :=
  (List.find? (fun p => p.1 == n) b).map (fun p => p.2)

/-- Errors raised by the catalog client and the storage clients. -/
inductive ApiErr where
  | notFound
  | ambiguous
  | fieldMismatch
  | invalidPath
  | sizeMismatch
deriving DecidableEq

/-- Errors raised by `check_file` (`dbclients/tantalus.py`).  The source
defines only `DataCorruptionError`; `DataMissingError` is the error the
spec and `check_integrity.py` expect for an absent file. -/
inductive CheckErr where
  | dataCorruption
  | dataMissing
deriving DecidableEq

/-- A storage record: primary key and the path prefix used to convert
between absolute paths and catalog-relative filenames. -/
structure Storage where
  id : Nat
  pfx : PyStr
deriving DecidableEq

/-- A file_resource record: logical identity of a file's content. -/
structure FileResource where
  id : Nat
  filename : PyStr
  size : Nat
  created : Nat
deriving DecidableEq

/-- A file_instance record: a claim that a resource is materialized on a
storage, with a soft-delete flag. -/
structure FileInstance where
  id : Nat
  fileResource : Nat
  storage : Nat
  is_deleted : Bool
deriving DecidableEq

/-- The metadata catalog: resource and instance tables plus fresh-id
counters standing for the store's primary-key allocation. -/
structure Catalog where
  resources : List FileResource
  instances : List FileInstance
  nextResourceId : Nat
  nextInstanceId : Nat
deriving DecidableEq

deriving instance DecidableEq for Except

/-- All instance records for a (file_resource, storage) pair, deleted ones
included: the identity-field match used by get / get_or_create. -/
def pairRecords (c : Catalog) (fr st : Nat) : List FileInstance :=
  c.instances.filter (fun i => i.fileResource == fr && i.storage == st)

/-- Whether an instance record is a non-deleted instance for a pair. -/
def instActive (fr st : Nat) (i : FileInstance) : Bool :=
  i.fileResource == fr && i.storage == st && !i.is_deleted

/-- All non-deleted instance records for a (file_resource, storage) pair. -/
def activeRecords (c : Catalog) (fr st : Nat) : List FileInstance :=
  c.instances.filter (instActive fr st)

/-- Modelled from the spec: `get('file_resource', filename=...)` from the
missing `basicclient.py` — NotFound on zero matches, Ambiguous on more
than one. -/
def getResourceByFilename (c : Catalog) (fn : PyStr) : Except ApiErr FileResource :=
  match c.resources.filter (fun r => r.filename == fn) with
  | [] => .error .notFound
  | [r] => .ok r
  | _ => .error .ambiguous

/-- Modelled from the spec: `get_or_create('file_resource', filename=..,
created=.., size=..)` from the missing `basicclient.py` — keyed by
filename; FieldMismatch when the existing record's size/created differ. -/
def getOrCreateResource (c : Catalog) (fn : PyStr) (sz cr : Nat) :
    Catalog × Except ApiErr FileResource :=
  match c.resources.filter (fun r => r.filename == fn) with
  | [] =>
    let r : FileResource := ⟨c.nextResourceId, fn, sz, cr⟩
    ({ c with resources := c.resources ++ [r],
              nextResourceId := c.nextResourceId + 1 }, .ok r)
  | [r] =>
    if r.size == sz && r.created == cr then (c, .ok r)
    else (c, .error .fieldMismatch)
  | _ => (c, .error .ambiguous)

/-- Modelled from the spec: `get_or_create('file_instance',
file_resource=.., storage=..)` — only identity fields are passed, so no
FieldMismatch can arise; creates a non-deleted instance on NotFound. -/
def getOrCreateInstance (c : Catalog) (fr st : Nat) :
    Catalog × Except ApiErr FileInstance :=
  match pairRecords c fr st with
  | [] =>
    let i : FileInstance := ⟨c.nextInstanceId, fr, st, false⟩
    ({ c with instances := c.instances ++ [i],
              nextInstanceId := c.nextInstanceId + 1 }, .ok i)
  | [i] => (c, .ok i)
  | _ => (c, .error .ambiguous)

/-- Embeds `update('file_instance', id=.., is_deleted=..)`: partial update
by primary key. -/
def setInstanceDeleted (c : Catalog) (iid : Nat) (d : Bool) : Catalog :=
  { c with instances :=
      c.instances.map (fun i => if i.id == iid then { i with is_deleted := d } else i) }

/-- Embeds `update('file_resource', id=.., created=.., size=..)`: partial
update by primary key. -/
def updateResourceFields (c : Catalog) (rid : Nat) (sz cr : Nat) : Catalog :=
  { c with resources :=
      c.resources.map (fun r => if r.id == rid then { r with size := sz, created := cr } else r) }

/-- The soft-delete loop of `add_file` (tantalus.py:400-408): mark every
instance of the resource deleted, across all storages. -/
def softDeleteResourceInstances (c : Catalog) (rid : Nat) : Catalog :=
  { c with instances :=
      c.instances.map (fun i => if i.fileResource == rid then { i with is_deleted := true } else i) }

/-- Embeds `TantalusApi.add_instance` (tantalus.py:470-495): get_or_create the
instance for the pair, then revive it if it is marked deleted. -/
def add_instance (c : Catalog) (fr st : Nat) : Catalog × Except ApiErr FileInstance :=
  match getOrCreateInstance c fr st with
  | (c₁, .error e) => (c₁, .error e)
  | (c₁, .ok i) =>
    if i.is_deleted then
      (setInstanceDeleted c₁ i.id false, .ok { i with is_deleted := false })
    else
      (c₁, .ok i)

/-- Embeds `TantalusApi.get_file_resource_filename` (tantalus.py:241-260): strip
the storage prefix, then strip leading slashes; ValueError if the path
does not start with the prefix. -/
def get_file_resource_filename (pfx filepath : PyStr) : Except ApiErr PyStr :=
  if pfx.isPrefixOf filepath then
    .ok ((filepath.drop pfx.length).dropWhile (fun ch => ch == '/'))
  else
    .error .invalidPath

/-- Python `os.path.join(a, b)` for a relative second argument. -/
def osJoin (a b : PyStr) : PyStr :=
  if a = [] then b
  else if a.getLast? == some '/' then a ++ b
  else a ++ '/' :: b

/-- Python's substring containment `needle in hay`. -/
def subStr (needle : PyStr) : PyStr → Bool
  | [] => needle.isEmpty
  | c :: rest => needle.isPrefixOf (c :: rest) || subStr needle rest

/-- Embeds `TantalusApi.get_filepath` (tantalus.py:262-277): reject filenames
that start with a slash or contain "..", else join onto the prefix. -/
def get_filepath (st : Storage) (fn : PyStr) : Except ApiErr PyStr :=
  if (['/'] : PyStr).isPrefixOf fn || subStr ['.', '.'] fn then
    .error .invalidPath
  else
    .ok (osJoin st.pfx fn)

/-- Embeds `TantalusApi.check_file` (tantalus.py:447-468): as written in the
source, an absent file raises DataCorruptionError (not DataMissingError),
and a size mismatch raises DataCorruptionError. -/
def check_file (b : Backend) (r : FileResource) : Except CheckErr Unit :=
  match b.find r.filename with
  | none => .error .dataCorruption
  | some m => if m.size != r.size then .error .dataCorruption else .ok ()

/-- Embeds `TantalusApi.update_file` (tantalus.py:423-445): push the backend's
live size/created onto the instance's file resource; the backend reads
fail if the file is absent. -/
def update_file (b : Backend) (c : Catalog) (r : FileResource) :
    Catalog × Except ApiErr Unit :=
  match b.find r.filename with
  | none => (c, .error .notFound)
  | some m => (updateResourceFields c r.id m.size m.created, .ok ())

/-- Embeds `TantalusApi.add_file` (tantalus.py:333-421).  Backend reads are the
arguments of the get_or_create call, so they run first and an absent file
aborts with no catalog mutation.  On FieldMismatch with update=false the
error propagates; with update=true the existing resource's instances are
all soft-deleted, the resource fields are updated to the live values, and
an instance is added on the target storage. -/
def add_file (st : Storage) (b : Backend) (c : Catalog) (filepath : PyStr)
    (upd : Bool) : Catalog × Except ApiErr (FileResource × FileInstance) :=
  match get_file_resource_filename st.pfx filepath with
  | .error e => (c, .error e)
  | .ok fn =>
    match b.find fn with
    | none => (c, .error .notFound)
    | some m =>
      match getOrCreateResource c fn m.size m.created with
      | (c₁, .ok r) =>
        match add_instance c₁ r.id st.id with
        | (c₂, .ok i) => (c₂, .ok (r, i))
        | (c₂, .error e) => (c₂, .error e)
      | (c₁, .error .fieldMismatch) =>
        if !upd then (c₁, .error .fieldMismatch)
        else
          match getResourceByFilename c₁ fn with
          | .error e => (c₁, .error e)
          | .ok r =>
            let c₂ := softDeleteResourceInstances c₁ r.id
            let c₃ := updateResourceFields c₂ r.id m.size m.created
            let r' := { r with size := m.size, created := m.created }
            match add_instance c₃ r'.id st.id with
            | (c₄, .ok i) => (c₄, .ok (r', i))
            | (c₄, .error e) => (c₄, .error e)
      | (c₁, .error e) => (c₁, .error e)

/-- The per-resource body of the integrity sweep
(`datamanagement/check_integrity.py:70-112`): fetch the instance on the
target storage (a miss is logged and skipped), skip deleted instances,
run `check_file`, then apply the fix_corrupt / remove_missing actions,
each suppressed by dry_run. -/
def sweepStep (b : Backend) (stId : Nat) (c : Catalog) (r : FileResource)
    (fixCorrupt removeMissing dryRun : Bool) : Catalog × Option ApiErr :=
  match pairRecords c r.id stId with
  | [] => (c, none)
  | [i] =>
    if i.is_deleted then (c, none)
    else
      let fileCorrupt := match check_file b r with
        | .error .dataCorruption => true
        | _ => false
      let fileMissing := match check_file b r with
        | .error .dataMissing => true
        | _ => false
      match (if fileCorrupt && fixCorrupt then
               (if !dryRun then update_file b c r else (c, .ok ()))
             else (c, .ok ())) with
      | (c₁, .error e) => (c₁, some e)
      | (c₁, .ok _) =>
        if fileMissing && removeMissing && !dryRun then
          (setInstanceDeleted c₁ i.id true, none)
        else (c₁, none)
  | _ => (c, some .ambiguous)

/-- Embeds `BlobStorageClient.create` (tantalus.py:125-139): if the blob exists,
compare its size with the local file's and fail on mismatch, else no-op;
if absent, upload the local file.  The blob container maps names to
sizes; `lfs` is the local filesystem. -/
def lookupSize (l : List (PyStr × Nat)) (k : PyStr) : Option Nat :=
  (List.find? (fun p => p.1 == k) l).map (fun p => p.2)

def blobCreate (bs : List (PyStr × Nat)) (lfs : List (PyStr × Nat))
    (blobname filepath : PyStr) : Except ApiErr (List (PyStr × Nat)) :=
  match lookupSize bs blobname with
  | some azSize =>
    match lookupSize lfs filepath with
    | none => .error .notFound
    | some s => if azSize != s then .error .sizeMismatch else .ok bs
  | none =>
    match lookupSize lfs filepath with
    | none => .error .notFound
    | some s => .ok (bs ++ [(blobname, s)])

/-- Embeds `ServerStorageClient.create` (tantalus.py:185-188): destination is the
storage directory joined with the filename; `os.path.samefile` stats both
paths (failing if either is absent) and the file is copied, overwriting,
unless source and destination are the same file.  No size comparison. -/
def serverCreate (fs : List (PyStr × Nat)) (sd : PyStr)
    (filename filepath : PyStr) : Except ApiErr (List (PyStr × Nat)) :=
  let dest := osJoin sd filename
  match lookupSize fs filepath with
  | none => .error .notFound
  | some s =>
    match lookupSize fs dest with
    | none => .error .notFound
    | some _ =>
      if filepath = dest then .ok fs
      else .ok (fs.map (fun p => if p.1 == dest then (p.1, s) else p))

/-- Modelled from the spec: the paginated list driver of the missing
`basicclient.py`, with the offset/limit handling of
`TantalusApi.get_list_pagination_initial_params` and
`get_list_pagination_next_page_params` (tantalus.py:220-239): fetch the
page at the current offset, advance the offset by the limit, stop when a
page returns fewer records than the limit.  Returns the records yielded
and the number of page fetches.  The fuel argument bounds the recursion
and is chosen large enough to never run out. -/
def listLoop (recs : List α) (limit offset fuel : Nat) : List α × Nat :=
  match fuel with
  | 0 => ([], 0)
  | fuel' + 1 =>
    let page := (recs.drop offset).take limit
    if page.length < limit then (page, 1)
    else
      let rest := listLoop recs limit (offset + limit) fuel'
      (page ++ rest.1, rest.2 + 1)

/-- A full `list` call: page size 100 starting at offset 0
(tantalus.py:228-229). -/
def listRecords (recs : List α) : List α × Nat :=
  listLoop recs 100 0 (recs.length + 1)

/-- The catalog invariant of the spec: at most one non-deleted
FileInstance per (file_resource, storage) pair. -/
def InvOneActive (c : Catalog) : Prop :=
  ∀ fr st, (activeRecords c fr st).length ≤ 1

/-- Well-formedness the metadata store guarantees: instance primary keys
are pairwise distinct and below the fresh-id counter. -/
def WFids (c : Catalog) : Prop :=
  c.instances.Pairwise (fun a b => a.id ≠ b.id) ∧
  ∀ i ∈ c.instances, i.id < c.nextInstanceId

/-- The catalog-mutating operations named by the invariant claim: an
add_file call, a bare add_instance call, an update_file call, and one
integrity-sweep step. -/
inductive Op where
  | addFileOp (st : Storage) (b : Backend) (filepath : PyStr) (upd : Bool)
  | addInstanceOp (fr stId : Nat)
  | updateFileOp (b : Backend) (r : FileResource)
  | sweepOp (b : Backend) (stId : Nat) (r : FileResource) (fixCorrupt removeMissing dryRun : Bool)

/-- Apply one operation, keeping the catalog it leaves behind (errors in
the source raise after any mutations already made, so the partially
mutated catalog is the one that persists). -/
def applyOp (c : Catalog) : Op → Catalog
  | .addFileOp st b p u => (add_file st b c p u).1
  | .addInstanceOp fr s => (add_instance c fr s).1
  | .updateFileOp b r => (update_file b c r).1
  | .sweepOp b s r fc rm dr => (sweepStep b s c r fc rm dr).1

/-- Apply a sequence of operations left to right. -/
def applyOps (c : Catalog) (ops : List Op) : Catalog :=
  ops.foldl applyOp c

/-- Helper: a list is a prefix (in the Boolean sense) of itself followed by
anything. -/
theorem isPrefixOf_append_self (a b : PyStr) : a.isPrefixOf (a ++ b) = true := by
  induction a with
  | nil => simp [List.isPrefixOf]
  | cons x xs ih => simp [List.isPrefixOf, ih]

/-- Claim C1 (code bug, evaluation at the failing input): as written in the
source, `check_file` raises DataCorruptionError — not DataMissingError —
when the backing file is absent from the storage.  At concrete inputs:
an absent file yields dataCorruption (which is a different error from the
dataMissing the claim requires), a present file whose live size differs
from the catalog's yields dataCorruption, and a match succeeds silently. -/
theorem checkFile_missing_file_error :
    check_file [] ⟨1, ['a'], 5, 0⟩ = .error .dataCorruption ∧
    (Except.error CheckErr.dataCorruption : Except CheckErr Unit) ≠ .error .dataMissing ∧
    check_file [(['a'], ⟨4, 0⟩)] ⟨1, ['a'], 5, 0⟩ = .error .dataCorruption ∧
    check_file [(['a'], ⟨5, 0⟩)] ⟨1, ['a'], 5, 0⟩ = .ok () := by decide

/-- Claim C7: for every instance examined by the integrity sweep with
dry_run set, whatever the check finds and whatever the fix_corrupt and
remove_missing flags are, the catalog comes back unchanged: the sweep
step is detection and logging only. -/
theorem sweepStep_dryRun_no_mutation (b : Backend) (stId : Nat) (c : Catalog)
    (r : FileResource) (fixCorrupt removeMissing : Bool) :
    (sweepStep b stId c r fixCorrupt removeMissing true).1 = c := by
  unfold sweepStep
  rcases h : pairRecords c r.id stId with _ | ⟨i, _ | ⟨j, tl⟩⟩
  · rfl
  · simp only
    cases hd : i.is_deleted
    · simp [Bool.not_true, ite_self]
    · simp
  · rfl

/-- Claim C6 (code bug, evaluation at the failing input): running the
sweep step with remove_missing=true and dry_run=false on an active
instance whose backing file is absent does NOT set is_deleted: because
`check_file` raises DataCorruptionError for the absent file, the sweep
takes the corrupt branch, never the missing branch, and the catalog is
returned unchanged with the instance still non-deleted. -/
theorem sweep_remove_missing_does_not_delete :
    sweepStep [] 1 ⟨[⟨9, ['a'], 5, 0⟩], [⟨5, 9, 1, false⟩], 10, 6⟩ ⟨9, ['a'], 5, 0⟩
        false true false
      = (⟨[⟨9, ['a'], 5, 0⟩], [⟨5, 9, 1, false⟩], 10, 6⟩, none) ∧
    ∀ i ∈ (sweepStep [] 1 ⟨[⟨9, ['a'], 5, 0⟩], [⟨5, 9, 1, false⟩], 10, 6⟩ ⟨9, ['a'], 5, 0⟩
        false true false).1.instances, i.is_deleted = false := by decide

/-- Claim C9: `add_file` fails with the invalid-path error, with the
catalog unmutated, for every absolute path that does not start with the
storage's prefix; and for a path of the form prefix ++ rest the derived
catalog filename is rest with its leading slashes stripped. -/
theorem addFile_invalid_path_guard (st : Storage) (b : Backend) (c : Catalog)
    (filepath : PyStr) (upd : Bool) :
    (st.pfx.isPrefixOf filepath = false →
      add_file st b c filepath upd = (c, .error .invalidPath)) ∧
    (∀ rest, filepath = st.pfx ++ rest →
      get_file_resource_filename st.pfx filepath
        = .ok (rest.dropWhile (fun ch => ch == '/'))) := by
  constructor
  · intro h
    simp [add_file, get_file_resource_filename, h]
  · rintro rest rfl
    simp [get_file_resource_filename, isPrefixOf_append_self, List.drop_left]

theorem addFile_invalid_path_guard_witness :
    add_file ⟨1, ['/', 'd']⟩ [] ⟨[], [], 0, 0⟩ ['/', 'e', '/', 'a'] false
      = (⟨[], [], 0, 0⟩, .error .invalidPath) ∧
    get_file_resource_filename ['/', 'd'] ['/', 'd', '/', 'a'] = .ok ['a'] := by
  constructor
  · exact (addFile_invalid_path_guard ⟨1, ['/', 'd']⟩ [] ⟨[], [], 0, 0⟩ ['/', 'e', '/', 'a'] false).1 (by decide)
  · exact (addFile_invalid_path_guard ⟨1, ['/', 'd']⟩ [] ⟨[], [], 0, 0⟩ ['/', 'd', '/', 'a'] false).2 ['/', 'a'] (by decide)

/-- Claim C10: `get_filepath` rejects every filename that starts with a
slash or contains "..", uniformly in the storage prefix (the guard never
consults it); every other filename yields the storage prefix joined with
the filename (the prefix leads the result and the filename ends it). -/
theorem getFilepath_traversal_guard (st : Storage) (fn : PyStr) :
    (((['/'] : PyStr).isPrefixOf fn || subStr ['.', '.'] fn) = true →
      ∀ p, get_filepath ⟨st.id, p⟩ fn = .error .invalidPath) ∧
    (((['/'] : PyStr).isPrefixOf fn || subStr ['.', '.'] fn) = false →
      ∃ out, get_filepath st fn = .ok out ∧ st.pfx <+: out ∧ fn <:+ out) := by
  constructor
  · intro h p
    simp [get_filepath, h]
  · intro h
    refine ⟨osJoin st.pfx fn, by simp [get_filepath, h], ?_, ?_⟩
    · unfold osJoin
      split
      · simp_all
      · split
        · exact List.prefix_append _ _
        · exact List.prefix_append _ _
    · unfold osJoin
      split
      · exact List.suffix_refl fn
      · split
        · exact List.suffix_append _ _
        · exact (List.suffix_append ['/'] fn).trans (List.suffix_append _ _)

theorem getFilepath_traversal_guard_witness :
    get_filepath ⟨1, ['/', 'd']⟩ ['.', '.', '/', 'a'] = .error .invalidPath ∧
    ∃ out, get_filepath ⟨1, ['/', 'd']⟩ ['a'] = .ok out ∧
      ['/', 'd'] <+: out ∧ ['a'] <:+ out := by
  constructor
  · exact (getFilepath_traversal_guard ⟨1, ['/', 'd']⟩ ['.', '.', '/', 'a']).1 (by decide) ['/', 'd']
  · exact (getFilepath_traversal_guard ⟨1, ['/', 'd']⟩ ['a']).2 (by decide)

/-- Claim C5 (counterexample): the filesystem variant of the storage
clients' create does not satisfy the claimed contract.  Destination
d/x exists with size 5, the local source s has size 7: the claim
requires a SizeMismatch failure, but the code copies, overwriting the
destination with size 7, and reports success. -/
theorem serverCreate_ignores_size_mismatch :
    serverCreate [(['d', '/', 'x'], 5), (['s'], 7)] ['d'] ['x'] ['s']
      = .ok [(['d', '/', 'x'], 7), (['s'], 7)] ∧
    serverCreate [(['d', '/', 'x'], 5), (['s'], 7)] ['d'] ['x'] ['s']
      ≠ .error .sizeMismatch := by decide

/-- Claim C5 (amended): the object-store variant satisfies the contract —
SizeMismatch when the destination exists with a different size, no-op
when the sizes match, upload when absent.  The filesystem variant does
not compare sizes: it is a no-op only when source and destination are
the same file, copies (overwriting) when the destination is a different
existing file, and fails when the destination is absent (samefile stats
both paths). -/
theorem create_contract_per_variant (bs lfs fsys : List (PyStr × Nat))
    (sd blobname filepath fn : PyStr) (azSize s : Nat) :
    (lookupSize bs blobname = some azSize → lookupSize lfs filepath = some s →
      azSize ≠ s → blobCreate bs lfs blobname filepath = .error .sizeMismatch) ∧
    (lookupSize bs blobname = some azSize → lookupSize lfs filepath = some s →
      azSize = s → blobCreate bs lfs blobname filepath = .ok bs) ∧
    (lookupSize bs blobname = none → lookupSize lfs filepath = some s →
      blobCreate bs lfs blobname filepath = .ok (bs ++ [(blobname, s)])) ∧
    (lookupSize fsys filepath = some s → filepath = osJoin sd fn →
      serverCreate fsys sd fn filepath = .ok fsys) ∧
    (lookupSize fsys filepath = some s → lookupSize fsys (osJoin sd fn) = some azSize →
      filepath ≠ osJoin sd fn →
      serverCreate fsys sd fn filepath
        = .ok (fsys.map (fun p => if p.1 == osJoin sd fn then (p.1, s) else p))) ∧
    (lookupSize fsys filepath = some s → lookupSize fsys (osJoin sd fn) = none →
      serverCreate fsys sd fn filepath = .error .notFound) := by
  refine ⟨?_, ?_, ?_, ?_, ?_, ?_⟩
  · intro h1 h2 h3
    simp [blobCreate, h1, h2, bne_iff_ne, h3]
  · intro h1 h2 h3
    simp [blobCreate, h1, h2, h3]
  · intro h1 h2
    simp [blobCreate, h1, h2]
  · intro h1 h2
    subst h2
    simp [serverCreate, h1]
  · intro h1 h2 h3
    simp [serverCreate, h1, h2, h3]
  · intro h1 h2
    simp [serverCreate, h1, h2]

theorem create_contract_per_variant_witness :
    blobCreate [(['x'], 5)] [(['s'], 7)] ['x'] ['s'] = .error .sizeMismatch ∧
    blobCreate [(['x'], 5)] [(['s'], 5)] ['x'] ['s'] = .ok [(['x'], 5)] ∧
    blobCreate [] [(['s'], 7)] ['x'] ['s'] = .ok [(['x'], 7)] ∧
    serverCreate [(['d', '/', 'x'], 5)] ['d'] ['x'] ['d', '/', 'x'] = .ok [(['d', '/', 'x'], 5)] ∧
    serverCreate [(['d', '/', 'x'], 5), (['s'], 7)] ['d'] ['x'] ['s']
      = .ok [(['d', '/', 'x'], 7), (['s'], 7)] ∧
    serverCreate [(['s'], 7)] ['d'] ['x'] ['s'] = .error .notFound := by
  refine ⟨?_, ?_, ?_, ?_, ?_, ?_⟩
  · exact (create_contract_per_variant [(['x'], 5)] [(['s'], 7)] [] [] ['x'] ['s'] [] 5 7).1
      (by decide) (by decide) (by decide)
  · exact (create_contract_per_variant [(['x'], 5)] [(['s'], 5)] [] [] ['x'] ['s'] [] 5 5).2.1
      (by decide) (by decide) rfl
  · exact (create_contract_per_variant [] [(['s'], 7)] [] [] ['x'] ['s'] [] 5 7).2.2.1
      (by decide) (by decide)
  · exact (create_contract_per_variant [] [] [(['d', '/', 'x'], 5)] ['d'] [] ['d', '/', 'x'] ['x'] 5 5).2.2.2.1
      (by decide) (by decide)
  · exact (create_contract_per_variant [] [] [(['d', '/', 'x'], 5), (['s'], 7)] ['d'] [] ['s'] ['x'] 5 7).2.2.2.2.1
      (by decide) (by decide) (by decide)
  · exact (create_contract_per_variant [] [] [(['s'], 7)] ['d'] [] ['s'] ['x'] 5 7).2.2.2.2.2
      (by decide) (by decide)

/-- Helper: the paginated list driver started at any offset yields
exactly the records from that offset on, in order, using
(remaining / limit) + 1 page fetches, provided the fuel exceeds that
number. -/
theorem listLoop_spec {α : Type} (recs : List α) (limit : Nat) (hl : 0 < limit) :
    ∀ fuel offset, (recs.length - offset) / limit < fuel →
      listLoop recs limit offset fuel
        = (recs.drop offset, (recs.length - offset) / limit + 1) := by
  intro fuel
  induction fuel with
  | zero => intro offset h; exact absurd h (Nat.not_lt_zero _)
  | succ f ih =>
    intro offset h
    unfold listLoop
    simp only
    by_cases hshort : ((recs.drop offset).take limit).length < limit
    · rw [if_pos hshort]
      have hlen : (recs.drop offset).length = recs.length - offset := List.length_drop offset recs
      have hlt : recs.length - offset < limit := by
        rw [List.length_take, hlen] at hshort
        omega
      have hz : (recs.length - offset) / limit = 0 := Nat.div_eq_of_lt hlt
      rw [hz]
      rw [List.take_of_length_le (by rw [hlen]; omega)]
    · rw [if_neg hshort]
      have hlen : (recs.drop offset).length = recs.length - offset := List.length_drop offset recs
      have hge : limit ≤ recs.length - offset := by
        rw [List.length_take, hlen] at hshort
        omega
      have hdiv1 : 1 ≤ (recs.length - offset) / limit := (Nat.one_le_div_iff hl).mpr hge
      have hsub : (recs.length - (offset + limit)) / limit = (recs.length - offset) / limit - 1 := by
        have h1 : recs.length - (offset + limit) = recs.length - offset - limit * 1 := by omega
        rw [h1, Nat.sub_mul_div _ _ _ (by omega)]
      have hrec := ih (offset + limit) (by omega)
      rw [hrec]
      simp only [Prod.mk.injEq]
      constructor
      · have hdd : recs.drop (offset + limit) = (recs.drop offset).drop limit := by
          rw [List.drop_drop]
        rw [hdd]
        exact List.take_append_drop limit (recs.drop offset)
      · omega

/-- Claim C8 (amended): a list call over N records with page size 100
yields exactly the N records in stable order, but uses exactly
N / 100 + 1 page fetches — one more than the claimed ceil(N/P) whenever
P divides N (including N = 0), and equal to it otherwise. -/
theorem list_yields_all_with_extra_fetch {α : Type} (recs : List α) :
    listRecords recs = (recs, recs.length / 100 + 1) := by
  unfold listRecords
  rw [listLoop_spec recs 100 (by omega) (recs.length + 1) 0
    (by have := Nat.div_le_self recs.length 100; omega)]
  simp

/-- Claim C8 (counterexample): over exactly 100 records with page size
100 the driver makes 2 page fetches, not ceil(100/100) = 1: the full
first page forces one further fetch that comes back short. -/
theorem list_fetch_count_counterexample :
    ¬ ((listRecords (List.range 100)).2 = (100 + 100 - 1) / 100) := by decide

/-- Helper: add_instance when no record exists for the pair — a fresh
non-deleted instance is appended. -/
theorem add_instance_of_none (c : Catalog) (fr st : Nat)
    (hp : pairRecords c fr st = []) :
    add_instance c fr st
      = ({ c with instances := c.instances ++ [⟨c.nextInstanceId, fr, st, false⟩],
                  nextInstanceId := c.nextInstanceId + 1 },
         .ok ⟨c.nextInstanceId, fr, st, false⟩) := by
  unfold add_instance getOrCreateInstance
  rw [hp]
  rfl

theorem add_instance_of_active (c : Catalog) (fr st : Nat) (i : FileInstance)
    (hp : pairRecords c fr st = [i]) (hd : i.is_deleted = false) :
    add_instance c fr st = (c, .ok i) := by
  unfold add_instance getOrCreateInstance
  rw [hp]
  simp [hd]

theorem add_instance_of_deleted (c : Catalog) (fr st : Nat) (i : FileInstance)
    (hp : pairRecords c fr st = [i]) (hd : i.is_deleted = true) :
    add_instance c fr st
      = (setInstanceDeleted c i.id false, .ok { i with is_deleted := false }) := by
  unfold add_instance getOrCreateInstance
  rw [hp]
  simp [hd]

theorem add_instance_of_many (c : Catalog) (fr st : Nat) (i j : FileInstance)
    (tl : List FileInstance) (hp : pairRecords c fr st = i :: j :: tl) :
    add_instance c fr st = (c, .error .ambiguous) := by
  unfold add_instance getOrCreateInstance
  rw [hp]

theorem pair_facts (c : Catalog) (fr st : Nat) (i : FileInstance)
    (hp : pairRecords c fr st = [i]) :
    i ∈ c.instances ∧ i.fileResource = fr ∧ i.storage = st := by
  have hi : i ∈ pairRecords c fr st := by
    rw [hp]
    exact List.mem_cons_self _ _
  have hm := List.mem_filter.mp hi
  refine ⟨hm.1, ?_, ?_⟩
  · have hb := hm.2
    simp [Bool.and_eq_true, beq_iff_eq] at hb
    exact hb.1
  · have hb := hm.2
    simp [Bool.and_eq_true, beq_iff_eq] at hb
    exact hb.2

theorem pairRecords_map_pair_keeping (c : Catalog) (fr st : Nat)
    (g : FileInstance → FileInstance)
    (hg : ∀ j, (g j).fileResource = j.fileResource ∧ (g j).storage = j.storage) :
    pairRecords { c with instances := c.instances.map g } fr st
      = (pairRecords c fr st).map g := by
  unfold pairRecords
  simp only
  rw [List.filter_map]
  congr 1
  apply List.filter_congr
  intro j _
  simp [Function.comp, (hg j).1, (hg j).2]

theorem pairRecords_append_one (c : Catalog) (fr st : Nat) (i : FileInstance) (n m : Nat) :
    pairRecords { c with instances := c.instances ++ [i],
                         nextResourceId := n, nextInstanceId := m } fr st
      = pairRecords c fr st ++ List.filter (fun j => j.fileResource == fr && j.storage == st) [i] := by
  unfold pairRecords
  simp [List.filter_append]

/-- Claim C4: add_instance is idempotent.  When the store holds at most
one instance record for the pair, the first call succeeds, the second
call returns the very same catalog and the very same instance (same id),
the pair ends with exactly one record, and when the pre-existing record
was soft-deleted the returned instance keeps its id and no record is
added — it is revived in place with is_deleted=false. -/
theorem add_instance_idempotent (c : Catalog) (fr st : Nat)
    (h : (pairRecords c fr st).length ≤ 1) :
    ∃ c₁ i₁,
      add_instance c fr st = (c₁, .ok i₁) ∧
      add_instance c₁ fr st = (c₁, .ok i₁) ∧
      i₁.is_deleted = false ∧
      (pairRecords c₁ fr st).length = 1 ∧
      (∀ i, pairRecords c fr st = [i] →
        i₁.id = i.id ∧ c₁.instances.length = c.instances.length) := by
  rcases hp : pairRecords c fr st with _ | ⟨i, _ | ⟨j, tl⟩⟩
  · -- no record for the pair: a fresh non-deleted instance is created
    have hp1 := pairRecords_append_one c fr st ⟨c.nextInstanceId, fr, st, false⟩
      c.nextResourceId (c.nextInstanceId + 1)
    rw [hp] at hp1
    simp at hp1
    refine ⟨_, _, add_instance_of_none c fr st hp, ?_, rfl, ?_, ?_⟩
    · exact add_instance_of_active _ fr st _ hp1 rfl
    · simp [hp1]
    · intro i hi
      simp at hi
  · by_cases hd : i.is_deleted
    · -- deleted: revived in place, same id, no new record
      have hfix : ∀ j : FileInstance,
          ((if j.id == i.id then { j with is_deleted := false } else j).fileResource
            = j.fileResource) ∧
          ((if j.id == i.id then { j with is_deleted := false } else j).storage
            = j.storage) := by
        intro j
        by_cases hj : j.id == i.id <;> simp [hj]
      have hp1 : pairRecords (setInstanceDeleted c i.id false) fr st
          = [{ i with is_deleted := false }] := by
        unfold setInstanceDeleted
        rw [pairRecords_map_pair_keeping c fr st _ hfix, hp]
        simp
      refine ⟨_, _, add_instance_of_deleted c fr st i hp hd, ?_, rfl, ?_, ?_⟩
      · exact add_instance_of_active _ fr st _ hp1 rfl
      · simp [hp1]
      · intro i' hi'
        have hii : i = i' := by injection hi'
        subst hii
        exact ⟨rfl, by simp [setInstanceDeleted]⟩
    · -- already active: both calls are pure reads
      have hd' : i.is_deleted = false := by
        cases hde : i.is_deleted
        · rfl
        · exact absurd hde hd
      refine ⟨c, i, add_instance_of_active c fr st i hp hd',
        add_instance_of_active c fr st i hp hd', hd', by simp [hp], ?_⟩
      intro i' hi'
      have hii : i = i' := by injection hi'
      subst hii
      exact ⟨rfl, rfl⟩
  · rw [hp] at h
    simp at h

theorem add_instance_idempotent_witness :
    (pairRecords ⟨[⟨7, ['a'], 5, 0⟩], [⟨3, 7, 1, true⟩], 8, 4⟩ 7 1).length ≤ 1 ∧
    (∃ c₁ i₁,
      add_instance ⟨[⟨7, ['a'], 5, 0⟩], [⟨3, 7, 1, true⟩], 8, 4⟩ 7 1 = (c₁, .ok i₁) ∧
      add_instance c₁ 7 1 = (c₁, .ok i₁) ∧
      i₁.is_deleted = false ∧
      (pairRecords c₁ 7 1).length = 1 ∧
      (∀ i, pairRecords ⟨[⟨7, ['a'], 5, 0⟩], [⟨3, 7, 1, true⟩], 8, 4⟩ 7 1 = [i] →
        i₁.id = i.id ∧ c₁.instances.length
          = (⟨[⟨7, ['a'], 5, 0⟩], [⟨3, 7, 1, true⟩], 8, 4⟩ : Catalog).instances.length)) :=
  ⟨by decide, add_instance_idempotent ⟨[⟨7, ['a'], 5, 0⟩], [⟨3, 7, 1, true⟩], 8, 4⟩ 7 1 (by decide)⟩

/-- Helper: well-formedness and the one-active-instance invariant carry
over to any catalog with the same instance table and counter. -/
theorem good_of_same_instances (c c' : Catalog)
    (hi : c'.instances = c.instances) (hn : c'.nextInstanceId = c.nextInstanceId) :
    (WFids c → WFids c') ∧ (InvOneActive c → InvOneActive c') := by
  constructor
  · rintro ⟨h1, h2⟩
    refine ⟨hi ▸ h1, ?_⟩
    intro i him
    rw [hn]
    exact h2 i (hi ▸ him)
  · intro h fr st
    have hx := h fr st
    unfold activeRecords at hx ⊢
    rw [hi]
    exact hx

theorem active_le_pair (c : Catalog) (fr st : Nat) :
    (activeRecords c fr st).length ≤ (pairRecords c fr st).length := by
  unfold activeRecords pairRecords
  rw [← List.countP_eq_length_filter, ← List.countP_eq_length_filter]
  apply List.countP_mono_left
  intro j _ h
  unfold instActive at h
  rw [Bool.and_eq_true] at h
  exact h.1

theorem mem_id_unique (l : List FileInstance)
    (hpw : l.Pairwise (fun a b => a.id ≠ b.id)) :
    ∀ i ∈ l, ∀ j ∈ l, j.id = i.id → j = i := by
  induction l with
  | nil =>
    intro i hi
    cases hi
  | cons a tl ih =>
    intro i hi j hj hid
    rw [List.pairwise_cons] at hpw
    obtain ⟨ha, htl⟩ := hpw
    rcases List.mem_cons.mp hi with rfl | hi'
    · rcases List.mem_cons.mp hj with rfl | hj'
      · rfl
      · exact absurd hid (ha j hj').symm
    · rcases List.mem_cons.mp hj with rfl | hj'
      · exact absurd hid (ha i hi')
      · exact ih htl i hi' j hj' hid

theorem wfids_map (c : Catalog) (g : FileInstance → FileInstance)
    (hg : ∀ j, (g j).id = j.id) (h : WFids c) :
    WFids { c with instances := c.instances.map g } := by
  obtain ⟨h1, h2⟩ := h
  constructor
  · rw [List.pairwise_map]
    exact h1.imp (fun hab => by rw [hg, hg]; exact hab)
  · intro i him
    obtain ⟨a, ha, rfl⟩ := List.mem_map.mp him
    rw [hg]
    exact h2 a ha

theorem active_le_of_deletion_map (l : List FileInstance) (g : FileInstance → FileInstance)
    (hg : ∀ j ∈ l, ∀ fr st, instActive fr st (g j) = true → instActive fr st j = true)
    (fr st : Nat) :
    ((l.map g).filter (instActive fr st)).length ≤ (l.filter (instActive fr st)).length := by
  rw [← List.countP_eq_length_filter, ← List.countP_eq_length_filter, List.countP_map]
  exact List.countP_mono_left (fun j hj h => hg j hj fr st h)

theorem instActive_soft_delete (cond : FileInstance → Bool) (j : FileInstance) (fr st : Nat)
    (h : instActive fr st (if cond j then { j with is_deleted := true } else j) = true) :
    instActive fr st j = true := by
  by_cases hc : cond j
  · rw [if_pos hc] at h
    simp [instActive] at h
  · rwa [if_neg hc] at h

theorem preserve_setInstanceDeleted_true (c : Catalog) (iid : Nat)
    (hwf : WFids c) (hinv : InvOneActive c) :
    WFids (setInstanceDeleted c iid true) ∧ InvOneActive (setInstanceDeleted c iid true) := by
  constructor
  · exact wfids_map c _ (fun j => by by_cases hj : j.id == iid <;> simp [hj]) hwf
  · intro fr st
    have h2 := hinv fr st
    unfold activeRecords at h2 ⊢
    unfold setInstanceDeleted
    simp only
    exact le_trans
      (active_le_of_deletion_map c.instances _
        (fun j _ fr' st' => instActive_soft_delete (fun i => i.id == iid) j fr' st') fr st) h2

theorem preserve_softDelete (c : Catalog) (rid : Nat)
    (hwf : WFids c) (hinv : InvOneActive c) :
    WFids (softDeleteResourceInstances c rid) ∧
    InvOneActive (softDeleteResourceInstances c rid) := by
  constructor
  · exact wfids_map c _ (fun j => by by_cases hj : j.fileResource == rid <;> simp [hj]) hwf
  · intro fr st
    have h2 := hinv fr st
    unfold activeRecords at h2 ⊢
    unfold softDeleteResourceInstances
    simp only
    exact le_trans
      (active_le_of_deletion_map c.instances _
        (fun j _ fr' st' => instActive_soft_delete (fun i => i.fileResource == rid) j fr' st') fr st) h2

theorem preserve_add_instance (c : Catalog) (fr st : Nat)
    (hwf : WFids c) (hinv : InvOneActive c) :
    WFids (add_instance c fr st).1 ∧ InvOneActive (add_instance c fr st).1 := by
  rcases hp : pairRecords c fr st with _ | ⟨i, _ | ⟨j, tl⟩⟩
  · -- fresh creation
    rw [add_instance_of_none c fr st hp]
    obtain ⟨h1, h2⟩ := hwf
    constructor
    · constructor
      · rw [List.pairwise_append]
        refine ⟨h1, List.pairwise_singleton _ _, ?_⟩
        intro a ha b hb
        have hbb : b = ⟨c.nextInstanceId, fr, st, false⟩ := by simpa using hb
        subst hbb
        have := h2 a ha
        simp only
        omega
      · intro x hx
        rcases List.mem_append.mp hx with hl | hr
        · have := h2 x hl
          simp only
          omega
        · have hxx : x = ⟨c.nextInstanceId, fr, st, false⟩ := by simpa using hr
          subst hxx
          simp
    · intro fr' st'
      have hle := hinv fr' st'
      unfold activeRecords at hle ⊢
      simp only [List.filter_append, List.length_append]
      by_cases hps : instActive fr' st' ⟨c.nextInstanceId, fr, st, false⟩ = true
      · have hfr : fr = fr' ∧ st = st' := by
          have := hps
          simp [instActive] at this
          exact this
        obtain ⟨rfl, rfl⟩ := hfr
        have hzero : (List.filter (instActive fr st) c.instances).length = 0 := by
          have hap := active_le_pair c fr st
          unfold activeRecords at hap
          rw [hp] at hap
          simpa using hap
        rw [hzero]
        simp [hps]
      · have hps' : instActive fr' st' ⟨c.nextInstanceId, fr, st, false⟩ = false :=
          Bool.not_eq_true _ ▸ hps
        simp [hps']
        exact hle
  · by_cases hd : i.is_deleted
    · -- revival of the unique (deleted) record
      rw [add_instance_of_deleted c fr st i hp hd]
      obtain ⟨hmem, hfr, hst⟩ := pair_facts c fr st i hp
      constructor
      · exact wfids_map c _ (fun j => by by_cases hj : j.id == i.id <;> simp [hj]) hwf
      · intro fr' st'
        by_cases hps : fr' = fr ∧ st' = st
        · obtain ⟨rfl, rfl⟩ := hps
          have hfix : ∀ j : FileInstance,
              ((if j.id == i.id then { j with is_deleted := false } else j).fileResource
                = j.fileResource) ∧
              ((if j.id == i.id then { j with is_deleted := false } else j).storage
                = j.storage) := by
            intro j
            by_cases hj : j.id == i.id <;> simp [hj]
          have hpr : pairRecords (setInstanceDeleted c i.id false) fr' st'
              = [{ i with is_deleted := false }] := by
            unfold setInstanceDeleted
            rw [pairRecords_map_pair_keeping c fr' st' _ hfix, hp]
            simp
          have hle := active_le_pair (setInstanceDeleted c i.id false) fr' st'
          rw [hpr] at hle
          simpa using hle
        · -- other pairs are untouched: the revived record is not theirs
          have hcong : ∀ j ∈ c.instances,
              instActive fr' st'
                  (if j.id == i.id then { j with is_deleted := false } else j)
                = instActive fr' st' j := by
            intro j hj
            by_cases hj2 : (j.id == i.id) = true
            · have hj3 : j = i := mem_id_unique c.instances hwf.1 i hmem j hj (by
                simpa using hj2)
              subst hj3
              rw [if_pos hj2]
              rcases not_and_or.mp hps with hne | hne
              · have hb : (j.fileResource == fr') = false := by
                  rw [hfr]
                  simp [Ne.symm hne]
                simp [instActive, hb]
              · have hb : (j.storage == st') = false := by
                  rw [hst]
                  simp [Ne.symm hne]
                simp [instActive, hb]
            · rw [if_neg (by simpa using hj2)]
          have h2 := hinv fr' st'
          unfold activeRecords at h2 ⊢
          unfold setInstanceDeleted
          simp only
          rw [← List.countP_eq_length_filter, List.countP_map,
            List.countP_congr (fun x hx => by rw [Function.comp_apply, hcong x hx]),
            List.countP_eq_length_filter]
          exact h2
    · rw [add_instance_of_active c fr st i hp (Bool.not_eq_true _ ▸ hd)]
      exact ⟨hwf, hinv⟩
  · rw [add_instance_of_many c fr st i j tl hp]
    exact ⟨hwf, hinv⟩

theorem gocr_instance_fields (c : Catalog) (fn : PyStr) (sz cr : Nat) :
    (getOrCreateResource c fn sz cr).1.instances = c.instances ∧
    (getOrCreateResource c fn sz cr).1.nextInstanceId = c.nextInstanceId := by
  unfold getOrCreateResource
  split
  · exact ⟨rfl, rfl⟩
  · split
    · exact ⟨rfl, rfl⟩
    · exact ⟨rfl, rfl⟩
  · exact ⟨rfl, rfl⟩

theorem updateResourceFields_instance_fields (c : Catalog) (rid sz cr : Nat) :
    (updateResourceFields c rid sz cr).instances = c.instances ∧
    (updateResourceFields c rid sz cr).nextInstanceId = c.nextInstanceId :=
  ⟨rfl, rfl⟩

theorem update_file_instance_fields (b : Backend) (c : Catalog) (r : FileResource) :
    (update_file b c r).1.instances = c.instances ∧
    (update_file b c r).1.nextInstanceId = c.nextInstanceId := by
  unfold update_file
  split
  · exact ⟨rfl, rfl⟩
  · exact ⟨rfl, rfl⟩

theorem preserve_add_file (st : Storage) (b : Backend) (c : Catalog) (p : PyStr) (u : Bool)
    (hwf : WFids c) (hinv : InvOneActive c) :
    WFids (add_file st b c p u).1 ∧ InvOneActive (add_file st b c p u).1 := by
  unfold add_file
  rcases hfn : get_file_resource_filename st.pfx p with e | fn
  · dsimp only
    exact ⟨hwf, hinv⟩
  · dsimp only
    rcases hbf : b.find fn with _ | m
    · dsimp only
      exact ⟨hwf, hinv⟩
    · dsimp only
      rcases hgo : getOrCreateResource c fn m.size m.created with ⟨c₁, res⟩
      have hff := gocr_instance_fields c fn m.size m.created
      rw [hgo] at hff
      have hgood₁ := good_of_same_instances c c₁ hff.1 hff.2
      have hwf₁ := hgood₁.1 hwf
      have hinv₁ := hgood₁.2 hinv
      rcases res with e | r
      · rcases e with _ | _ | _ | _ | _
        · dsimp only
          exact ⟨hwf₁, hinv₁⟩
        · dsimp only
          exact ⟨hwf₁, hinv₁⟩
        · -- fieldMismatch
          dsimp only
          cases u
          · simp only [Bool.not_false, reduceIte]
            exact ⟨hwf₁, hinv₁⟩
          · simp only [Bool.not_true, reduceIte]
            rcases hgr : getResourceByFilename c₁ fn with e' | r
            · dsimp only
              exact ⟨hwf₁, hinv₁⟩
            · dsimp only
              have hsd := preserve_softDelete c₁ r.id hwf₁ hinv₁
              have hup := updateResourceFields_instance_fields
                (softDeleteResourceInstances c₁ r.id) r.id m.size m.created
              have hgood₃ := good_of_same_instances _ _ hup.1 hup.2
              have hwf₃ := hgood₃.1 hsd.1
              have hinv₃ := hgood₃.2 hsd.2
              have hai := preserve_add_instance
                (updateResourceFields (softDeleteResourceInstances c₁ r.id) r.id m.size m.created)
                r.id st.id hwf₃ hinv₃
              rcases hia : add_instance
                  (updateResourceFields (softDeleteResourceInstances c₁ r.id) r.id m.size m.created)
                  r.id st.id with ⟨c₄, ri⟩
              rw [hia] at hai
              rcases ri with e'' | i
              · exact hai
              · exact hai
        · dsimp only
          exact ⟨hwf₁, hinv₁⟩
        · dsimp only
          exact ⟨hwf₁, hinv₁⟩
      · dsimp only
        have hai := preserve_add_instance c₁ r.id st.id hwf₁ hinv₁
        rcases hia : add_instance c₁ r.id st.id with ⟨c₂, ri⟩
        rw [hia] at hai
        rcases ri with e'' | i
        · dsimp only
          exact hai
        · dsimp only
          exact hai

theorem preserve_sweepStep (b : Backend) (stId : Nat) (c : Catalog) (r : FileResource)
    (fc rm dr : Bool) (hwf : WFids c) (hinv : InvOneActive c) :
    WFids (sweepStep b stId c r fc rm dr).1 ∧ InvOneActive (sweepStep b stId c r fc rm dr).1 := by
  unfold sweepStep
  rcases hp : pairRecords c r.id stId with _ | ⟨i, _ | ⟨j, tl⟩⟩
  · dsimp only
    exact ⟨hwf, hinv⟩
  · dsimp only
    cases hd : i.is_deleted
    · rcases hck : check_file b r with ce | u
      · rcases ce with _ | _
        · -- data corruption found
          cases fc
          · simp
            exact ⟨hwf, hinv⟩
          · cases dr
            · rcases hup : update_file b c r with ⟨c₁, res⟩
              have huf := update_file_instance_fields b c r
              rw [hup] at huf
              have hg := good_of_same_instances c c₁ huf.1 huf.2
              rcases res with e | u
              · simp
                exact ⟨hg.1 hwf, hg.2 hinv⟩
              · simp
                exact ⟨hg.1 hwf, hg.2 hinv⟩
            · simp
              exact ⟨hwf, hinv⟩
        · -- data missing found
          cases rm
          · simp
            exact ⟨hwf, hinv⟩
          · cases dr
            · simp
              exact preserve_setInstanceDeleted_true c i.id hwf hinv
            · simp
              exact ⟨hwf, hinv⟩
      · simp
        exact ⟨hwf, hinv⟩
    · simp
      exact ⟨hwf, hinv⟩
  · dsimp only
    exact ⟨hwf, hinv⟩

theorem preserve_applyOp (c : Catalog) (op : Op)
    (hwf : WFids c) (hinv : InvOneActive c) :
    WFids (applyOp c op) ∧ InvOneActive (applyOp c op) := by
  cases op with
  | addFileOp st b p u => exact preserve_add_file st b c p u hwf hinv
  | addInstanceOp fr s => exact preserve_add_instance c fr s hwf hinv
  | updateFileOp b r =>
    have huf := update_file_instance_fields b c r
    have hg := good_of_same_instances c (update_file b c r).1 huf.1 huf.2
    exact ⟨hg.1 hwf, hg.2 hinv⟩
  | sweepOp b s r fc rm dr => exact preserve_sweepStep b s c r fc rm dr hwf hinv

/-- Claim C2: every sequence of add_file, add_instance, update_file and
integrity-sweep operations preserves the invariant that at most one
non-deleted FileInstance exists per (file_resource, storage) pair,
starting from any catalog whose instance primary keys are well formed. -/
theorem invariant_preserved_by_op_sequences (ops : List Op) (c : Catalog)
    (hwf : WFids c) (hinv : InvOneActive c) :
    InvOneActive (applyOps c ops) := by
  induction ops generalizing c with
  | nil => exact hinv
  | cons op tl ih =>
    have h := preserve_applyOp c op hwf hinv
    exact ih (applyOp c op) h.1 h.2

theorem invariant_preserved_witness :
    WFids ⟨[⟨7, ['a'], 5, 0⟩], [⟨3, 7, 1, true⟩], 8, 4⟩ ∧
    InvOneActive ⟨[⟨7, ['a'], 5, 0⟩], [⟨3, 7, 1, true⟩], 8, 4⟩ ∧
    InvOneActive (applyOps ⟨[⟨7, ['a'], 5, 0⟩], [⟨3, 7, 1, true⟩], 8, 4⟩
      [.addInstanceOp 7 1, .addInstanceOp 7 1, .sweepOp [] 1 ⟨7, ['a'], 5, 0⟩ false true false]) := by
  have hwf : WFids ⟨[⟨7, ['a'], 5, 0⟩], [⟨3, 7, 1, true⟩], 8, 4⟩ := by
    constructor
    · simp
    · intro i him
      simp at him
      subst him
      simp
  have hinv : InvOneActive ⟨[⟨7, ['a'], 5, 0⟩], [⟨3, 7, 1, true⟩], 8, 4⟩ := by
    intro fr st
    unfold activeRecords instActive
    simp
  exact ⟨hwf, hinv,
    invariant_preserved_by_op_sequences _ _ hwf hinv⟩

theorem filter_pair_map (l : List FileInstance) (g : FileInstance → FileInstance)
    (hg : ∀ j, (g j).fileResource = j.fileResource ∧ (g j).storage = j.storage)
    (fr st : Nat) :
    (l.map g).filter (fun i => i.fileResource == fr && i.storage == st)
      = (l.filter (fun i => i.fileResource == fr && i.storage == st)).map g := by
  rw [List.filter_map]
  congr 1
  apply List.filter_congr
  intro j _
  simp [Function.comp, (hg j).1, (hg j).2]

/-- Claim C3: when a FileResource already exists under the derived
filename with different size/created (FieldMismatch) — given the live
backend metadata, primary-key-distinct instance ids and at most one
record for the target pair — add_file with allowUpdate=false propagates
fieldMismatch leaving the catalog untouched, and add_file with
allowUpdate=true succeeds, returning the resource updated to the live
size/created; in the resulting catalog every instance of that resource
on any other storage is soft-deleted, an active instance exists on the
target storage, and every resource record under that id carries the live
size/created. -/
theorem addFile_field_mismatch (st : Storage) (b : Backend) (c : Catalog)
    (filepath fn : PyStr) (m : FileMeta) (r : FileResource)
    (hfn : get_file_resource_filename st.pfx filepath = .ok fn)
    (hb : b.find fn = some m)
    (hres : c.resources.filter (fun x => x.filename == fn) = [r])
    (hmm : ¬(r.size = m.size ∧ r.created = m.created))
    (hpw : c.instances.Pairwise (fun a b => a.id ≠ b.id))
    (hpair : (pairRecords c r.id st.id).length ≤ 1) :
    add_file st b c filepath false = (c, .error .fieldMismatch) ∧
    (∃ c' i,
      add_file st b c filepath true
        = (c', .ok ({ r with size := m.size, created := m.created }, i)) ∧
      (∀ j ∈ c'.instances, j.fileResource = r.id → j.storage ≠ st.id → j.is_deleted = true) ∧
      (∃ j ∈ c'.instances, j.fileResource = r.id ∧ j.storage = st.id ∧ j.is_deleted = false) ∧
      (∀ res ∈ c'.resources, res.id = r.id → res.size = m.size ∧ res.created = m.created)) := by
  have hcond : (r.size == m.size && r.created == m.created) = false := by
    rcases not_and_or.mp hmm with h | h
    · simp [h]
    · simp [h]
  have hgo : getOrCreateResource c fn m.size m.created = (c, .error .fieldMismatch) := by
    unfold getOrCreateResource
    rw [hres]
    simp [hcond]
  have hgr : getResourceByFilename c fn = .ok r := by
    unfold getResourceByFilename
    rw [hres]
  constructor
  · unfold add_file
    rw [hfn]
    dsimp only
    rw [hb]
    dsimp only
    rw [hgo]
    simp
  · unfold add_file
    rw [hfn]
    dsimp only
    rw [hb]
    dsimp only
    rw [hgo]
    dsimp only
    simp only [Bool.not_true, Bool.false_eq_true, if_false]
    rw [hgr]
    dsimp only
    -- name the post-soft-delete, post-update catalog
    have hins₃ : (updateResourceFields (softDeleteResourceInstances c r.id) r.id
        m.size m.created).instances
        = c.instances.map
            (fun i => if i.fileResource == r.id then { i with is_deleted := true } else i) := rfl
    have hres₃ : (updateResourceFields (softDeleteResourceInstances c r.id) r.id
        m.size m.created).resources
        = c.resources.map
            (fun x => if x.id == r.id then { x with size := m.size, created := m.created } else x) := rfl
    have hmarks : ∀ j ∈ (updateResourceFields (softDeleteResourceInstances c r.id) r.id
        m.size m.created).instances, j.fileResource = r.id → j.is_deleted = true := by
      rw [hins₃]
      intro j hj hjr
      obtain ⟨a, ha, rfl⟩ := List.mem_map.mp hj
      by_cases hab : (a.fileResource == r.id) = true
      · simp [hab]
      · rw [if_neg (by simpa using hab)] at hjr ⊢
        exact absurd hjr (by simpa using hab)
    have hresources : ∀ res ∈ (updateResourceFields (softDeleteResourceInstances c r.id) r.id
        m.size m.created).resources, res.id = r.id → res.size = m.size ∧ res.created = m.created := by
      rw [hres₃]
      intro res hres' hid
      obtain ⟨a, ha, rfl⟩ := List.mem_map.mp hres'
      by_cases hab : (a.id == r.id) = true
      · simp [hab]
      · rw [if_neg (by simpa using hab)] at hid ⊢
        exact absurd hid (by simpa using hab)
    have hmap : pairRecords (updateResourceFields (softDeleteResourceInstances c r.id) r.id
        m.size m.created) r.id st.id
        = (pairRecords c r.id st.id).map
            (fun i => if i.fileResource == r.id then { i with is_deleted := true } else i) := by
      unfold pairRecords
      rw [hins₃]
      exact filter_pair_map c.instances _
        (fun j => by by_cases hj : j.fileResource == r.id <;> simp [hj]) r.id st.id
    rcases hpr : pairRecords c r.id st.id with _ | ⟨i, _ | ⟨j2, tl⟩⟩
    · -- no prior instance on the target storage: one is created
      rw [hpr] at hmap
      simp only [List.map_nil] at hmap
      rw [add_instance_of_none _ r.id st.id hmap]
      dsimp only
      refine ⟨_, _, rfl, ?_, ?_, ?_⟩
      · intro j hj hjr hjs
        rcases List.mem_append.mp hj with hl | hr'
        · exact hmarks j hl hjr
        · obtain rfl := List.mem_singleton.mp hr'
          exact absurd rfl hjs
      · exact ⟨_, List.mem_append.mpr (Or.inr (List.mem_singleton.mpr rfl)), rfl, rfl, rfl⟩
      · exact hresources
    · -- a prior (unique) instance exists: it is soft-deleted then revived
      obtain ⟨hmem, hifr, hist⟩ := pair_facts c r.id st.id i hpr
      have hgi : (fun i => if i.fileResource == r.id then { i with is_deleted := true } else i) i
          = { i with is_deleted := true } := by
        simp [hifr]
      rw [hpr] at hmap
      simp only [List.map_cons, List.map_nil, hgi] at hmap
      rw [add_instance_of_deleted _ r.id st.id _ hmap rfl]
      dsimp only
      refine ⟨_, _, rfl, ?_, ?_, ?_⟩
      · intro j hj hjr hjs
        have hj' := hj
        unfold setInstanceDeleted at hj'
        rw [hins₃] at hj'
        simp only [List.map_map] at hj'
        obtain ⟨a, ha, rfl⟩ := List.mem_map.mp hj'
        by_cases haid : a.id = i.id
        · have : a = i := mem_id_unique c.instances hpw i hmem a ha haid
          subst this
          simp only [Function.comp, hgi] at hjs ⊢
          rw [if_pos (by simp)] at hjs ⊢
          exact absurd hist hjs
        · simp only [Function.comp] at hjr hjs ⊢
          by_cases hab : (a.fileResource == r.id) = true
          · rw [if_pos hab, if_neg (by simpa using haid)]
          · rw [if_neg hab, if_neg (by simpa using haid)] at hjr
            exact absurd hjr (by simpa using hab)
      · refine ⟨{ i with is_deleted := false }, ?_, hifr, hist, rfl⟩
        unfold setInstanceDeleted
        rw [hins₃]
        simp only [List.map_map]
        refine List.mem_map.mpr ⟨i, hmem, ?_⟩
        simp only [Function.comp, hgi]
        rw [if_pos (by simp)]
      · exact hresources
    · rw [hpr] at hpair
      simp at hpair

theorem addFile_field_mismatch_witness :
    ¬((4 : Nat) = 5 ∧ (10 : Nat) = 10) ∧
    (add_file ⟨1, ['/', 'd']⟩ [(['a'], ⟨5, 10⟩)]
        ⟨[⟨7, ['a'], 4, 10⟩], [⟨3, 7, 2, false⟩], 8, 4⟩ ['/', 'd', '/', 'a'] false
      = (⟨[⟨7, ['a'], 4, 10⟩], [⟨3, 7, 2, false⟩], 8, 4⟩, .error .fieldMismatch)) ∧
    (∃ c' i,
      add_file ⟨1, ['/', 'd']⟩ [(['a'], ⟨5, 10⟩)]
          ⟨[⟨7, ['a'], 4, 10⟩], [⟨3, 7, 2, false⟩], 8, 4⟩ ['/', 'd', '/', 'a'] true
        = (c', .ok (⟨7, ['a'], 5, 10⟩, i)) ∧
      (∀ j ∈ c'.instances, j.fileResource = 7 → j.storage ≠ 1 → j.is_deleted = true) ∧
      (∃ j ∈ c'.instances, j.fileResource = 7 ∧ j.storage = 1 ∧ j.is_deleted = false) ∧
      (∀ res ∈ c'.resources, res.id = 7 → res.size = 5 ∧ res.created = 10)) := by
  have h := addFile_field_mismatch ⟨1, ['/', 'd']⟩ [(['a'], ⟨5, 10⟩)]
    ⟨[⟨7, ['a'], 4, 10⟩], [⟨3, 7, 2, false⟩], 8, 4⟩ ['/', 'd', '/', 'a'] ['a'] ⟨5, 10⟩
    ⟨7, ['a'], 4, 10⟩ (by decide) (by decide) (by decide) (by decide) (by decide) (by decide)
  exact ⟨by decide, h.1, h.2⟩
